import Mathlib

/-!
Verification development for the `ouchi-cdn` repository: a TTL cache placed in
front of an HTTP origin.  The definitions below are a shallow embedding of the
Go sources:

* `src/memory/store.go` — the `MemoryStore` (concurrent map holding cache
  entries plus a sorted end-of-life index at the sentinel key
  `EOL_DATA_KEY`), its `Get`, `Set` and the `cleaning` sweeper loop.
  The `sync.Map` holding untyped (`any`) values is modelled as an association
  list from `String` to a sum type `StoreValue`; one sweeper tick of the
  `cleaning` loop becomes the pure function `MemoryStore.tick`, with the
  wall-clock second passed explicitly.
* `src/ttlcache/compressor.go` — `compress`, modelled at the granularity of
  the `compress/gzip` API (header / sync-flushed block / final block /
  footer), since bit-level DEFLATE is outside the embedding.  The CRC-32 in
  the footer is a deterministic stand-in computed identically by the writer
  and reader models.
* `src/ttlcache/middleware.go` — `onProxyResponse` (the response interceptor
  installed as `ReverseProxy.ModifyResponse`) and `middlewareHandler` (the
  request router).
* `src/unnamed/part_000` — the FNV-based key derivation of its `get`/`set`.
-/

namespace OuchiCdn

instance {ε α : Type} [DecidableEq ε] [DecidableEq α] : DecidableEq (Except ε α) := fun x y =>
  match x, y with
  | .ok a, .ok b => decidable_of_iff (a = b) (by simp)
  | .error e, .error f => decidable_of_iff (e = f) (by simp)
  | .ok _, .error _ => isFalse (by simp)
  | .error _, .ok _ => isFalse (by simp)

/-! ## Gzip model (src/ttlcache/compressor.go)

Go's `compress/gzip` writes a stream consisting of a header, zero or more
sync-flushed deflate chunks (produced by `Flush`), and — only on `Close` — a
final deflate block followed by the gzip footer (CRC-32 and length of the
uncompressed data).  We model the byte stream at that framing granularity:
each `GzipSeg` stands for the run of bytes the corresponding API call appends
to the underlying buffer. -/

inductive GzipSeg where
  | header : GzipSeg
  | syncFlush : List Nat → GzipSeg
  | finalBlock : List Nat → GzipSeg
  | footer : Nat → Nat → GzipSeg
deriving DecidableEq, Repr

/-- Deterministic stand-in for CRC-32 over the uncompressed bytes; the writer
model (`gzipClose`) and the reader model (`gunzip`) compute the same
function, which is all the claims depend on. -/
def crcModel (l : List Nat) : Nat :=
  l.foldl (fun a b => (a * 131 + b + 1) % 4294967296) 0

/-- State of a `gzip.Writer` over an in-memory buffer: whether the header has
been emitted, the data written but not yet flushed into the buffer, all data
ever written (for the footer), and the segments emitted to the buffer. -/
structure GzipWriterState where
  headerWritten : Bool
  pending : List Nat
  written : List Nat
  out : List GzipSeg
deriving DecidableEq, Repr

/-- Model of `gzip.NewWriter(buff)`: nothing emitted yet (the header is lazy). -/
def gzipNewWriter : GzipWriterState := ⟨false, [], [], []⟩

/-- Model of `g.Write(p)`: emits the header on first use and buffers the data. -/
def gzipWrite (w : GzipWriterState) (p : List Nat) : GzipWriterState :=
  { w with
    headerWritten := true
    out := if w.headerWritten then w.out else w.out ++ [.header]
    pending := w.pending ++ p
    written := w.written ++ p }

/-- Model of `g.Flush()`: emits the header if needed and sync-flushes the buffered
data into the output; no final block and no footer are written. -/
def gzipFlush (w : GzipWriterState) : GzipWriterState :=
  { w with
    headerWritten := true
    out := (if w.headerWritten then w.out else w.out ++ [.header]) ++ [.syncFlush w.pending]
    pending := [] }

/-- Model of `g.Close()`: emits the header if needed, writes the final deflate block
with any remaining data, and appends the gzip footer (CRC-32 of all written
data and its length modulo 2^32). -/
def gzipClose (w : GzipWriterState) : GzipWriterState :=
  { w with
    headerWritten := true
    out := (if w.headerWritten then w.out else w.out ++ [.header])
      ++ [.finalBlock w.pending, .footer (crcModel w.written) (w.written.length % 4294967296)]
    pending := [] }

/-- Model of `compress` from src/ttlcache/compressor.go.  The Go function does
`defer g.Close()` and then `return buff.Bytes(), nil`: the return value is
computed BEFORE the deferred `Close` runs, so the bytes appended by `Close`
(final block and footer) are not part of the returned slice.  The model
therefore returns the segments emitted up to and including the `Flush`. -/
def compress (body : List Nat) : List GzipSeg :=
  let w := gzipNewWriter
  let w := gzipWrite w body
  let w := gzipFlush w
  w.out

/-- The variant of `compress` that closes the writer before taking the
buffer's bytes — what the code would produce if `Close` ran before the
return value was captured. -/
def compressClosed (body : List Nat) : List GzipSeg :=
  let w := gzipNewWriter
  let w := gzipWrite w body
  let w := gzipFlush w
  let w := gzipClose w
  w.out

/-- Reader loop of a strict gzip decoder (Go's `gzip.Reader` drained with
`io.ReadAll`): concatenates the deflate chunks and succeeds only when the
stream ends with a final block followed by a footer whose checksum and length
match; a stream that ends without them fails (unexpected EOF). -/
def gunzipBody (acc : List Nat) : List GzipSeg → Option (List Nat)
  | [] => none
  | .syncFlush d :: rest => gunzipBody (acc ++ d) rest
  | [.finalBlock d, .footer c n] =>
      let out := acc ++ d
      if c = crcModel out ∧ n = out.length % 4294967296 then some out else none
  | _ => none

/-- Strict gzip decompression over the framing model: requires the header,
then delegates to `gunzipBody`. -/
def gunzip : List GzipSeg → Option (List Nat)
  | .header :: rest => gunzipBody [] rest
  | _ => none

/-! ## Cache payloads

A stored payload (`[]byte` in Go) is either a raw byte string, or a
gzip-compressed stream (kept symbolic at the framing granularity above). -/

inductive CachedBytes where
  | raw : List Nat → CachedBytes
  | gzipStream : List GzipSeg → CachedBytes
deriving DecidableEq, Repr

/-! ## Data model (package cache, as used by src/memory/store.go) -/

/-- Model of `cache.ChacheData`: a cache entry. `Eol` is the absolute expiry in unix
seconds. -/
structure ChacheData where
  Eol : Int
  ContentType : String
  ContentEncoding : String
  Data : CachedBytes
deriving DecidableEq, Repr

/-- Model of `cache.EolData`: one record of the sorted end-of-life index. -/
structure EolData where
  Key : String
  Eol : Int
deriving DecidableEq, Repr

/-- Model of `cache.SortEolData`, the comparator passed to `slices.SortFunc`: orders
records by `Eol`. -/
def SortEolData (a b : EolData) : Int :=
  if a = b then 0 else if a.Eol > b.Eol then 1 else -1

/-- Model of `slices.SortFunc(sorted, cache.SortEolData)`: sorts the record list into
non-decreasing `Eol` order (the comparator compares only `Eol`); modelled by
insertion sort, which realises such a permutation. -/
def sortEol (l : List EolData) : List EolData :=
  List.insertionSort (fun a b => a.Eol ≤ b.Eol) l

/-- The values a `sync.Map` slot can hold in src/memory/store.go: the sorted
end-of-life list (stored at the sentinel key) or a cache entry pointer. -/
inductive StoreValue where
  | eolList : List EolData → StoreValue
  | data : ChacheData → StoreValue
deriving DecidableEq, Repr

/-- The sentinel key under which the sorted end-of-life list is stored. -/
def EOL_DATA_KEY : String := "EOL_DATA_KEY"

/-! ### The `sync.Map` as an association list -/

/-- Model of `sync.Map.Load`. -/
def lookupKV : List (String × StoreValue) → String → Option StoreValue
  | [], _ => none
  | (k', v) :: rest, k => if k' = k then some v else lookupKV rest k

/-- Model of `sync.Map.Store`: replace the binding if present, else append. -/
def storeKV : List (String × StoreValue) → String → StoreValue → List (String × StoreValue)
  | [], k, v => [(k, v)]
  | (k', v') :: rest, k, v =>
      if k' = k then (k, v) :: rest else (k', v') :: storeKV rest k v

/-- Model of `sync.Map.Delete`. -/
def deleteKV (m : List (String × StoreValue)) (k : String) : List (String × StoreValue) :=
  m.filter (fun p => !(p.1 == k))

/-- The sweeper's loop body deletes the map slot of every expired record. -/
def deleteKeys (m : List (String × StoreValue)) (es : List EolData) :
    List (String × StoreValue) :=
  es.foldl (fun mm e => deleteKV mm e.Key) m

/-! ### Key derivation for the store -/

/-- Modelled from the spec: `cache.HashKey` (package cache) is not under
src/ — only its callers in src/memory/store.go are.  The spec's KeyDeriver is
a pure, deterministic digest with distinct URLs assumed to map to distinct
keys, and the sentinel is never a digest; modelled as an injective tagging of
the URL that is never `EOL_DATA_KEY`. -/
def hashKey (url : String) : String := "#" ++ url

/-- Modelled from the spec: the fallible signature of `cache.HashKey` as its
callers use it; the derivation itself never fails. -/
def HashKey (url : String) : Except String String := .ok (hashKey url)

/-! ### The MemoryStore (src/memory/store.go) -/

/-- Error outcomes of `MemoryStore.Get`: `cache.ErrNoSuchKey`,
`cache.ErrExpired`, the failed type assertion, and a key-derivation error. -/
inductive GetErr where
  | noSuchKey : GetErr
  | expired : GetErr
  | castFailure : GetErr
  | keyError : GetErr
deriving DecidableEq, Repr

/-- Error outcomes of `MemoryStore.Set`: the sorted end-of-life list missing
from the map, its failed type assertion, and a key-derivation error. -/
inductive SetErr where
  | eolListMissing : SetErr
  | eolListCastFailure : SetErr
  | keyError : SetErr
deriving DecidableEq, Repr

/-- The `MemoryStore` state: the map (entries plus the sentinel slot) and the
configured durations in seconds.  `tickSec` only drives the real-time ticker
and plays no part in the per-tick semantics. -/
structure MemoryStore where
  cacheMap : List (String × StoreValue)
  ttlSec : Int
  tickSec : Int
deriving DecidableEq, Repr

/-- Model of `memory.NewMemoryStore`: stores the empty sorted list at the sentinel key
(then starts the cleaning goroutine, which is modelled by explicit `tick`
steps). -/
def NewMemoryStore (tickSec ttlSec : Int) : MemoryStore :=
  { cacheMap := storeKV [] EOL_DATA_KEY (.eolList []), ttlSec := ttlSec, tickSec := tickSec }

/-- Model of `MemoryStore.Get` (src/memory/store.go lines 77–101), with the wall clock
`now` (`time.Now().Unix()`) passed explicitly: derive the key, load the slot,
type-assert it, and report `expired` when `d.Eol < now`. -/
def MemoryStore.Get (m : MemoryStore) (now : Int) (url : String) : Except GetErr ChacheData :=
  match HashKey url with
  | .error _ => .error .keyError
  | .ok hash =>
    match lookupKV m.cacheMap hash with
    | none => .error .noSuchKey
    | some (.eolList _) => .error .castFailure
    | some (.data d) => if d.Eol < now then .error .expired else .ok d

/-- Model of `MemoryStore.Set` (src/memory/store.go lines 103–147), with the wall
clock `now` passed explicitly: build the entry with `Eol = now + ttlSec`,
derive the key, load and type-assert the sorted list, append the new record,
re-sort, store the list back and store the entry.  All error returns happen
before any `Store` call, so on error the map is unchanged. -/
def MemoryStore.Set (m : MemoryStore) (now : Int) (url contentType contentEncoding : String)
    (content : CachedBytes) : Except SetErr MemoryStore :=
  let eol := now + m.ttlSec
  let d : ChacheData := ⟨eol, contentType, contentEncoding, content⟩
  match HashKey url with
  | .error _ => .error .keyError
  | .ok hash =>
    match lookupKV m.cacheMap EOL_DATA_KEY with
    | none => .error .eolListMissing
    | some (.data _) => .error .eolListCastFailure
    | some (.eolList sorted) =>
      let sorted2 := sortEol (sorted ++ [⟨hash, eol⟩])
      let m1 := storeKV m.cacheMap EOL_DATA_KEY (.eolList sorted2)
      .ok { m with cacheMap := storeKV m1 hash (.data d) }

/-- The state after a `Set` call: the new state on success, the old state
when `Set` returned an error (all its error returns precede any write). -/
def SetD (m : MemoryStore) (now : Int) (url contentType contentEncoding : String)
    (content : CachedBytes) : MemoryStore :=
  match m.Set now url contentType contentEncoding content with
  | .ok m' => m'
  | .error _ => m

/-- One tick of the `cleaning` loop (src/memory/store.go lines 43–75) at
wall-clock second `now`: load and type-assert the sorted list (on failure,
`continue` — state unchanged); walk it from the front deleting the map slot
of every record with `Eol < now`, breaking at the first record with
`Eol >= now`; then remove every record with `Eol < now` from the list
(`slices.DeleteFunc`) and store the pruned list back. -/
def MemoryStore.tick (m : MemoryStore) (now : Int) : MemoryStore :=
  match lookupKV m.cacheMap EOL_DATA_KEY with
  | none => m
  | some (.data _) => m
  | some (.eolList sorted) =>
    let m1 := deleteKeys m.cacheMap (sorted.takeWhile (fun e => decide (e.Eol < now)))
    let sorted2 := sorted.filter (fun e => !decide (e.Eol < now))
    { m with cacheMap := storeKV m1 EOL_DATA_KEY (.eolList sorted2) }

/-- The sorted end-of-life list of a store ([] when the sentinel slot is
missing or mistyped). -/
def eolListOf (m : MemoryStore) : List EolData :=
  match lookupKV m.cacheMap EOL_DATA_KEY with
  | some (.eolList l) => l
  | _ => []

/-- States reachable from `NewMemoryStore` under `Set` calls and sweeper
ticks with a monotonically advancing clock.  `Get` does not change the state
and therefore needs no step.  A `Set` whose error return fires leaves the
state unchanged (`SetD`). -/
inductive Reachable : MemoryStore → Int → Prop where
  | init (tickSec ttlSec t0 : Int) : Reachable (NewMemoryStore tickSec ttlSec) t0
  | step_set {m : MemoryStore} {t t' : Int} (url contentType contentEncoding : String)
      (content : CachedBytes) :
      Reachable m t → t ≤ t' →
      Reachable (SetD m t' url contentType contentEncoding content) t'
  | step_tick {m : MemoryStore} {t t' : Int} :
      Reachable m t → t ≤ t' → Reachable (m.tick t') t'

/-! ## Response interception (src/ttlcache/middleware.go) -/

/-- An origin response as seen by `onProxyResponse`: status code, the
`Cache-Control`, `Content-Type` and `Content-Encoding` header values (`""`
when absent, as `http.Header.Get` returns), and the raw body bytes. -/
structure HttpResponse where
  statusCode : Nat
  cacheControl : String
  contentType : String
  contentEncoding : String
  body : List Nat
deriving DecidableEq, Repr

/-- The response handed on towards the client after `onProxyResponse` ran:
the (possibly rewritten) `Content-Encoding` header and the (possibly
compressed) body that `res.Body` was reset to. -/
structure DeliveredResponse where
  statusCode : Nat
  contentType : String
  contentEncoding : String
  body : CachedBytes
deriving DecidableEq, Repr

/-- Whether `pat` is an initial segment of the character list. -/
def startsWithChars : List Char → List Char → Bool
  | [], _ => true
  | _ :: _, [] => false
  | a :: as, b :: bs => a == b && startsWithChars as bs

/-- Whether `pat` occurs contiguously in the character list. -/
def containsChars : List Char → List Char → Bool
  | [], pat => startsWithChars pat []
  | c :: rest, pat => startsWithChars pat (c :: rest) || containsChars rest pat

/-- Model of `strings.Contains(s, sub)`: `sub` occurs as a contiguous substring of
`s`. -/
def strContains (s sub : String) : Bool := containsChars s.data sub.data

/-- Model of `onProxyResponse` (src/ttlcache/middleware.go lines 76–117), the
`ReverseProxy.ModifyResponse` hook, with the store state threaded through and
the wall clock passed explicitly.  Only a 200 response whose `Cache-Control`
is neither exactly "no-cache" nor exactly "no-store" is considered: its body
is gzip-compressed (and `Content-Encoding` set to "gzip") when the
content type contains "text" or "application" and no encoding is present,
otherwise taken as-is; the result is written to the store with
`store.Set` and `res.Body` is reset to those same bytes.  A `Set` error is
RETURNED (`return err`), which makes the proxy abort the response (its error
handler replaces it); otherwise the modified response is delivered. -/
def onProxyResponse (m : MemoryStore) (now : Int) (uri : String) (res : HttpResponse) :
    Except SetErr (MemoryStore × DeliveredResponse) :=
  if res.statusCode = 200 ∧ res.cacheControl ≠ "no-cache" ∧ res.cacheControl ≠ "no-store" then
    if (strContains res.contentType "text" || strContains res.contentType "application")
        && (res.contentEncoding == "") then
      match m.Set now uri res.contentType "gzip" (.gzipStream (compress res.body)) with
      | .error e => .error e
      | .ok m' => .ok (m', ⟨res.statusCode, res.contentType, "gzip",
          .gzipStream (compress res.body)⟩)
    else
      match m.Set now uri res.contentType res.contentEncoding (.raw res.body) with
      | .error e => .error e
      | .ok m' => .ok (m', ⟨res.statusCode, res.contentType, res.contentEncoding,
          .raw res.body⟩)
  else .ok (m, ⟨res.statusCode, res.contentType, res.contentEncoding, .raw res.body⟩)

/-- The response `onProxyResponse` leaves untouched (non-200, or suppressed
by `Cache-Control`): status, headers and body exactly as the origin sent
them. -/
def passthrough (res : HttpResponse) : DeliveredResponse :=
  ⟨res.statusCode, res.contentType, res.contentEncoding, .raw res.body⟩

/-- Outcomes of the request router `middlewareHandler`. -/
inductive RouterOutcome where
  | bypassedWebSocket : RouterOutcome
  | forwardedToOrigin : RouterOutcome
  | servedFromCache : ChacheData → RouterOutcome
  | errorReturned : GetErr → RouterOutcome
deriving DecidableEq, Repr

/-- Model of `middlewareHandler` (src/ttlcache/middleware.go lines 119–147): WebSocket
upgrades bypass the cache; `ErrNoSuchKey`/`ErrExpired` from `store.Get` lead
to forwarding the request to the origin; any OTHER error is RETURNED to the
framework (`return err`), failing the request; a hit is served from the
cache. -/
def middlewareHandler (m : MemoryStore) (now : Int) (url : String) (wsUpgrade : Bool) :
    RouterOutcome :=
  if wsUpgrade then .bypassedWebSocket
  else
    match m.Get now url with
    | .error .noSuchKey => .forwardedToOrigin
    | .error .expired => .forwardedToOrigin
    | .error e => .errorReturned e
    | .ok d => .servedFromCache d

/-! ## FNV-based key derivation (src/unnamed/part_000, `get`/`set`)

That variant derives the key as `string(c.hasher.Sum([]byte(url)))` with
`c.hasher = fnv.New128a()` and NOTHING ever written to the hasher.
`hash.Hash.Sum(b)` appends the digest of the data written so far to `b`, so
the derived key is the URL's bytes followed by the 16 constant bytes of the
FNV-128a offset basis (the digest of the empty stream). -/

/-- The FNV-128a offset basis 0x6c62272e07bb014262b821756295c58d, big-endian,
as `fnv.sum128a.Sum` appends it. -/
def fnv128aOffsetBytes : List Nat :=
  [0x6c, 0x62, 0x27, 0x2e, 0x07, 0xbb, 0x01, 0x42,
   0x62, 0xb8, 0x21, 0x75, 0x62, 0x95, 0xc5, 0x8d]

/-- The key derivation of `get`/`set` in src/unnamed/part_000:
`c.hasher.Sum([]byte(url))` = the input bytes with the constant digest
appended. -/
def fnvSumKey (url : List Nat) : List Nat := url ++ fnv128aOffsetBytes

/-- URL bytes for the ASCII inputs used here (`[]byte(url)`). -/
def strBytes (s : String) : List Nat := s.data.map Char.toNat

/-- A record list in non-decreasing expiry order. -/
@[reducible] def EolSorted (l : List EolData) : Prop :=
  List.Pairwise (fun a b : EolData => a.Eol ≤ b.Eol) l

instance : IsTotal EolData (fun a b => a.Eol ≤ b.Eol) :=
  ⟨fun a b => Int.le_total a.Eol b.Eol⟩

instance : IsTrans EolData (fun a b => a.Eol ≤ b.Eol) :=
  ⟨fun _ _ _ hab hbc => le_trans hab hbc⟩

/-- The structural invariant of every reachable `MemoryStore` state: the
sentinel slot holds the (typed) sorted end-of-life list, the list is in
non-decreasing expiry order, every cache entry has a record with its key and
expiry in the list, and every non-sentinel slot holds a cache entry. -/
structure Inv (m : MemoryStore) : Prop where
  sentinel : lookupKV m.cacheMap EOL_DATA_KEY = some (.eolList (eolListOf m))
  sortedRecords : EolSorted (eolListOf m)
  entryRecord : ∀ k d, lookupKV m.cacheMap k = some (.data d) →
    EolData.mk k d.Eol ∈ eolListOf m
  typedVals : ∀ k v, k ≠ EOL_DATA_KEY → lookupKV m.cacheMap k = some v →
    ∃ d, v = .data d

/-! ## Concrete sample states and responses used by the theorems below -/

/-- A fresh store: sweep tick 100s, TTL 10s. -/
def sampleNew : MemoryStore := NewMemoryStore 100 10

/-- The store after `Set "u"` at t = 0 (entry expires at 10). -/
def sampleOne : MemoryStore := SetD sampleNew 0 "u" "t" "" (.raw [104])

/-- The store after a second `Set "u"` at t = 5 (entry overwritten, now
expiring at 15). -/
def sampleTwo : MemoryStore := SetD sampleOne 5 "u" "t" "" (.raw [105])

/-- A 200 text/html origin response with no Content-Encoding, body "hello". -/
def resText : HttpResponse := ⟨200, "", "text/html", "", [104, 101, 108, 108, 111]⟩

/-- A 200 text/html origin response carrying Cache-Control: no-store. -/
def resNoStore : HttpResponse := ⟨200, "no-store", "text/html", "", [104, 101]⟩

/-- A 200 origin response that already carries a Content-Encoding. -/
def resEncoded : HttpResponse := ⟨200, "", "text/html", "br", [1, 2, 3]⟩

/-- A malformed store whose sentinel slot is missing entirely. -/
def mBad : MemoryStore := ⟨[], 10, 100⟩

/-- A malformed store where the slot of `hashKey "u"` holds a value of the
wrong type (the sweeper never stores entries, so this state is not reachable;
it exercises the type-assertion failure branch of `Get`). -/
def mCast : MemoryStore := ⟨[(EOL_DATA_KEY, .eolList []), ("#u", .eolList [])], 10, 100⟩

/-! ## Lemmas about the map primitives -/

theorem lookupKV_storeKV_self (m : List (String × StoreValue)) (k : String) (v : StoreValue) :
    lookupKV (storeKV m k v) k = some v := by
  induction m with
  | nil => simp [storeKV, lookupKV]
  | cons p rest ih =>
    obtain ⟨k', v'⟩ := p
    by_cases h : k' = k
    · simp [storeKV, h, lookupKV]
    · simp [storeKV, h, lookupKV, ih]

theorem lookupKV_storeKV_ne (m : List (String × StoreValue)) (k k' : String) (v : StoreValue)
    (h : k' ≠ k) : lookupKV (storeKV m k v) k' = lookupKV m k' := by
  have hne : k ≠ k' := fun h' => h h'.symm
  induction m with
  | nil => simp [storeKV, lookupKV, hne]
  | cons p rest ih =>
    obtain ⟨k₀, v₀⟩ := p
    by_cases h₀ : k₀ = k
    · subst h₀
      simp [storeKV, lookupKV, hne]
    · simp [storeKV, h₀, lookupKV, ih]

theorem lookupKV_deleteKV (m : List (String × StoreValue)) (k k' : String) :
    lookupKV (deleteKV m k) k' = if k' = k then none else lookupKV m k' := by
  induction m with
  | nil => simp [deleteKV, lookupKV]
  | cons p rest ih =>
    obtain ⟨k₀, v₀⟩ := p
    by_cases h₀ : k₀ = k
    · subst h₀
      have hdrop : deleteKV ((k₀, v₀) :: rest) k₀ = deleteKV rest k₀ := by
        simp [deleteKV]
      rw [hdrop, ih]
      by_cases h₁ : k' = k₀
      · simp [h₁]
      · have h₂ : k₀ ≠ k' := fun hh => h₁ hh.symm
        simp [h₁, lookupKV, h₂]
    · have hkeep : deleteKV ((k₀, v₀) :: rest) k = (k₀, v₀) :: deleteKV rest k := by
        simp [deleteKV, h₀]
      rw [hkeep]
      by_cases h₁ : k₀ = k'
      · subst h₁
        have h₂ : k₀ ≠ k := h₀
        simp [lookupKV, fun hh : k₀ = k => h₂ hh]
      · simp [lookupKV, h₁, ih]

theorem lookupKV_deleteKeys (es : List EolData) (m : List (String × StoreValue)) (k : String) :
    lookupKV (deleteKeys m es) k =
      if es.any (fun e => e.Key == k) then none else lookupKV m k := by
  induction es generalizing m with
  | nil => simp [deleteKeys]
  | cons e rest ih =>
    have hfold : deleteKeys m (e :: rest) = deleteKeys (deleteKV m e.Key) rest := by
      simp [deleteKeys]
    rw [hfold, ih]
    by_cases h : e.Key = k
    · simp [h, lookupKV_deleteKV]
    · have h' : k ≠ e.Key := fun hh => h hh.symm
      by_cases hr : rest.any (fun e' => e'.Key == k)
      · simp [h, hr]
      · simp [h, hr, lookupKV_deleteKV, h']

/-- The spec-modelled digest is never the sentinel key. -/
theorem hashKey_ne_sentinel (url : String) : hashKey url ≠ EOL_DATA_KEY := by
  intro h
  have h' := congrArg String.data h
  rw [hashKey, EOL_DATA_KEY, String.data_append] at h'
  simp at h'

/-! ## Lemmas about the sorted end-of-life list -/

theorem sortEol_sorted (l : List EolData) : EolSorted (sortEol l) :=
  List.sorted_insertionSort (fun a b : EolData => a.Eol ≤ b.Eol) l

theorem mem_sortEol {e : EolData} {l : List EolData} : e ∈ sortEol l ↔ e ∈ l :=
  (List.perm_insertionSort (fun a b : EolData => a.Eol ≤ b.Eol) l).mem_iff

/-- In a list sorted by expiry, every record already expired at `now` lies in
the scanned-and-deleted initial segment (the loop breaks at the first record
with `Eol >= now`, and everything before it is processed). -/
theorem mem_takeWhile_of_sorted {now : Int} {l : List EolData} (hs : EolSorted l) {e : EolData}
    (he : e ∈ l) (hlt : e.Eol < now) :
    e ∈ l.takeWhile (fun x => decide (x.Eol < now)) := by
  induction l with
  | nil => cases he
  | cons x xs ih =>
    have hs' := List.pairwise_cons.mp hs
    rcases List.mem_cons.mp he with rfl | he'
    · simp [List.takeWhile_cons, hlt]
    · have hx : x.Eol < now := lt_of_le_of_lt (hs'.1 e he') hlt
      simp only [List.takeWhile_cons, decide_eq_true_eq, hx, if_true, List.mem_cons]
      exact Or.inr (ih hs'.2 he')

/-- Every record of the scanned initial segment is a record of the list. -/
theorem mem_of_mem_takeWhile {l : List EolData} {p : EolData → Bool} {e : EolData}
    (h : e ∈ l.takeWhile p) : e ∈ l :=
  (List.takeWhile_sublist p).mem h

/-- A filtered sorted list stays sorted. -/
theorem EolSorted.filter {l : List EolData} (hs : EolSorted l) (p : EolData → Bool) :
    EolSorted (l.filter p) :=
  hs.sublist (List.filter_sublist l)

/-! ## Characterizations of the store operations -/

/-- When the sentinel slot holds the sorted list, `Set` succeeds and its
resulting state is: list re-stored with the new record sorted in, entry
stored at the derived key. -/
theorem Set_ok_of_sentinel {m : MemoryStore} {l : List EolData}
    (hs : lookupKV m.cacheMap EOL_DATA_KEY = some (.eolList l))
    (now : Int) (url ct ce : String) (b : CachedBytes) :
    m.Set now url ct ce b = .ok
      { m with cacheMap := (storeKV (storeKV m.cacheMap EOL_DATA_KEY
          (.eolList (sortEol (l ++ [⟨hashKey url, now + m.ttlSec⟩]))))
          (hashKey url) (.data ⟨now + m.ttlSec, ct, ce, b⟩)) } := by
  unfold MemoryStore.Set HashKey
  rw [hs]

/-- After a successful `Set` at time `t0`, `Get` on the same URL finds the
entry exactly while `t ≤ t0 + ttl` and reports it expired for `t0 + ttl < t`. -/
theorem Get_after_Set {m m' : MemoryStore} {t0 : Int} {url ct ce : String} {b : CachedBytes}
    (hset : m.Set t0 url ct ce b = .ok m') (t : Int) :
    m'.Get t url =
      if t0 + m.ttlSec < t then .error .expired
      else .ok ⟨t0 + m.ttlSec, ct, ce, b⟩ := by
  unfold MemoryStore.Set HashKey at hset
  cases hl : lookupKV m.cacheMap EOL_DATA_KEY with
  | none => rw [hl] at hset; cases hset
  | some v =>
    cases v with
    | data d => rw [hl] at hset; cases hset
    | eolList l =>
      rw [hl] at hset
      simp only [Except.ok.injEq] at hset
      subst hset
      unfold MemoryStore.Get HashKey
      simp only [lookupKV_storeKV_self]

/-! ## The invariant holds in every reachable state -/

/-- Build the invariant from facts about the raw map. -/
theorem Inv.of_lookup {m : MemoryStore} (l : List EolData)
    (hs : lookupKV m.cacheMap EOL_DATA_KEY = some (.eolList l))
    (hsort : EolSorted l)
    (hrec : ∀ k d, lookupKV m.cacheMap k = some (.data d) → EolData.mk k d.Eol ∈ l)
    (htyp : ∀ k v, k ≠ EOL_DATA_KEY → lookupKV m.cacheMap k = some v → ∃ d, v = .data d) :
    Inv m := by
  have hl : eolListOf m = l := by
    unfold eolListOf
    rw [hs]
  refine ⟨?_, ?_, ?_, ?_⟩
  · rw [hl]
    exact hs
  · rw [hl]
    exact hsort
  · intro k d h
    rw [hl]
    exact hrec k d h
  · exact htyp

theorem Inv_new (tickSec ttlSec : Int) : Inv (NewMemoryStore tickSec ttlSec) := by
  refine Inv.of_lookup [] ?_ ?_ ?_ ?_
  · rfl
  · exact List.Pairwise.nil
  · intro k d h
    replace h : lookupKV [(EOL_DATA_KEY, .eolList [])] k = some (.data d) := h
    rw [lookupKV] at h
    by_cases hk : EOL_DATA_KEY = k
    · rw [if_pos hk] at h
      cases h
    · rw [if_neg hk] at h
      cases h
  · intro k v hk h
    replace h : lookupKV [(EOL_DATA_KEY, .eolList [])] k = some v := h
    rw [lookupKV] at h
    rw [if_neg (fun hh => hk hh.symm)] at h
    cases h

theorem Inv_SetD {m : MemoryStore} (hm : Inv m) (now : Int) (url ct ce : String)
    (b : CachedBytes) : Inv (SetD m now url ct ce b) := by
  have hset := Set_ok_of_sentinel hm.sentinel now url ct ce b
  have hne := hashKey_ne_sentinel url
  have hS : SetD m now url ct ce b = { m with cacheMap := (storeKV (storeKV m.cacheMap
      EOL_DATA_KEY (.eolList (sortEol (eolListOf m ++ [⟨hashKey url, now + m.ttlSec⟩]))))
      (hashKey url) (.data ⟨now + m.ttlSec, ct, ce, b⟩)) } := by
    unfold SetD
    rw [hset]
  rw [hS]
  refine Inv.of_lookup (sortEol (eolListOf m ++ [⟨hashKey url, now + m.ttlSec⟩])) ?_ ?_ ?_ ?_
  · show lookupKV (storeKV (storeKV m.cacheMap EOL_DATA_KEY
        (.eolList (sortEol (eolListOf m ++ [⟨hashKey url, now + m.ttlSec⟩]))))
        (hashKey url) (.data ⟨now + m.ttlSec, ct, ce, b⟩)) EOL_DATA_KEY =
      some (.eolList (sortEol (eolListOf m ++ [⟨hashKey url, now + m.ttlSec⟩])))
    rw [lookupKV_storeKV_ne _ _ _ _ (fun hh => hne hh.symm), lookupKV_storeKV_self]
  · exact sortEol_sorted _
  · intro k d h
    replace h : lookupKV (storeKV (storeKV m.cacheMap EOL_DATA_KEY
        (.eolList (sortEol (eolListOf m ++ [⟨hashKey url, now + m.ttlSec⟩]))))
        (hashKey url) (.data ⟨now + m.ttlSec, ct, ce, b⟩)) k = some (.data d) := h
    rw [mem_sortEol]
    by_cases hk : k = hashKey url
    · subst hk
      rw [lookupKV_storeKV_self] at h
      cases h
      simp
    · rw [lookupKV_storeKV_ne _ _ _ _ hk] at h
      by_cases hk' : k = EOL_DATA_KEY
      · subst hk'
        rw [lookupKV_storeKV_self] at h
        cases h
      · rw [lookupKV_storeKV_ne _ _ _ _ hk'] at h
        exact List.mem_append_left _ (hm.entryRecord k d h)
  · intro k v hk h
    replace h : lookupKV (storeKV (storeKV m.cacheMap EOL_DATA_KEY
        (.eolList (sortEol (eolListOf m ++ [⟨hashKey url, now + m.ttlSec⟩]))))
        (hashKey url) (.data ⟨now + m.ttlSec, ct, ce, b⟩)) k = some v := h
    by_cases hk' : k = hashKey url
    · subst hk'
      rw [lookupKV_storeKV_self] at h
      exact ⟨_, (Option.some.injEq _ _ ▸ h).symm⟩
    · rw [lookupKV_storeKV_ne _ _ _ _ hk'] at h
      rw [lookupKV_storeKV_ne _ _ _ _ hk] at h
      exact hm.typedVals k v hk h

theorem Inv_tick {m : MemoryStore} (hm : Inv m) (now : Int) : Inv (m.tick now) := by
  have htick : m.tick now = { m with cacheMap := (storeKV (deleteKeys m.cacheMap
      ((eolListOf m).takeWhile (fun e => decide (e.Eol < now))))
      EOL_DATA_KEY (.eolList ((eolListOf m).filter (fun e => !decide (e.Eol < now))))) } := by
    unfold MemoryStore.tick
    rw [hm.sentinel]
  rw [htick]
  refine Inv.of_lookup ((eolListOf m).filter (fun e => !decide (e.Eol < now))) ?_ ?_ ?_ ?_
  · show lookupKV (storeKV (deleteKeys m.cacheMap
        ((eolListOf m).takeWhile (fun e => decide (e.Eol < now))))
        EOL_DATA_KEY (.eolList ((eolListOf m).filter (fun e => !decide (e.Eol < now)))))
        EOL_DATA_KEY =
      some (.eolList ((eolListOf m).filter (fun e => !decide (e.Eol < now))))
    rw [lookupKV_storeKV_self]
  · exact hm.sortedRecords.filter _
  · intro k d h
    replace h : lookupKV (storeKV (deleteKeys m.cacheMap
        ((eolListOf m).takeWhile (fun e => decide (e.Eol < now))))
        EOL_DATA_KEY (.eolList ((eolListOf m).filter (fun e => !decide (e.Eol < now)))))
        k = some (.data d) := h
    by_cases hk : k = EOL_DATA_KEY
    · subst hk
      rw [lookupKV_storeKV_self] at h
      cases h
    · rw [lookupKV_storeKV_ne _ _ _ _ hk] at h
      rw [lookupKV_deleteKeys] at h
      by_cases hany : ((eolListOf m).takeWhile (fun e => decide (e.Eol < now))).any
          (fun e => e.Key == k)
      · rw [if_pos hany] at h
        cases h
      · rw [if_neg hany] at h
        have hrec := hm.entryRecord k d h
        have hkeep : ¬ d.Eol < now := by
          intro hlt
          have hmem := mem_takeWhile_of_sorted hm.sortedRecords hrec hlt
          rw [List.any_eq_true] at hany
          exact hany ⟨⟨k, d.Eol⟩, hmem, by simp⟩
        exact List.mem_filter.mpr ⟨hrec, by simp [hkeep]⟩
  · intro k v hk h
    replace h : lookupKV (storeKV (deleteKeys m.cacheMap
        ((eolListOf m).takeWhile (fun e => decide (e.Eol < now))))
        EOL_DATA_KEY (.eolList ((eolListOf m).filter (fun e => !decide (e.Eol < now)))))
        k = some v := h
    rw [lookupKV_storeKV_ne _ _ _ _ hk] at h
    rw [lookupKV_deleteKeys] at h
    by_cases hany : ((eolListOf m).takeWhile (fun e => decide (e.Eol < now))).any
        (fun e => e.Key == k)
    · rw [if_pos hany] at h
      cases h
    · rw [if_neg hany] at h
      exact hm.typedVals k v hk h

/-- Every state reachable from `NewMemoryStore` under `Set` calls and
sweeper ticks satisfies the structural invariant. -/
theorem reachable_inv {m : MemoryStore} {t : Int} (h : Reachable m t) : Inv m := by
  induction h with
  | init tickSec ttlSec t0 => exact Inv_new tickSec ttlSec
  | step_set url ct ce b _ _ ih => exact Inv_SetD ih _ _ _ _ _
  | step_tick _ _ ih => exact Inv_tick ih _

/-! ## Further helper lemmas -/

theorem eolListOf_eq {m : MemoryStore} {l : List EolData}
    (h : lookupKV m.cacheMap EOL_DATA_KEY = some (.eolList l)) : eolListOf m = l := by
  unfold eolListOf
  rw [h]

/-- After a successful `Set`, the slot of the derived key holds the freshly
built entry. -/
theorem lookup_after_Set {m m' : MemoryStore} {t0 : Int} {url ct ce : String} {b : CachedBytes}
    (hset : m.Set t0 url ct ce b = .ok m') :
    lookupKV m'.cacheMap (hashKey url) = some (.data ⟨t0 + m.ttlSec, ct, ce, b⟩) := by
  unfold MemoryStore.Set HashKey at hset
  cases hl : lookupKV m.cacheMap EOL_DATA_KEY with
  | none => rw [hl] at hset; cases hset
  | some v =>
    cases v with
    | data d => rw [hl] at hset; cases hset
    | eolList l =>
      rw [hl] at hset
      simp only [Except.ok.injEq] at hset
      subst hset
      exact lookupKV_storeKV_self _ _ _

/-- On a sorted record list the stop-early scan (`takeWhile`) visits exactly
the records with `Eol < now` — the same set `slices.DeleteFunc` removes. -/
theorem takeWhile_eq_filter_of_sorted {now : Int} {l : List EolData} (hs : EolSorted l) :
    l.takeWhile (fun e => decide (e.Eol < now)) = l.filter (fun e => decide (e.Eol < now)) := by
  induction l with
  | nil => rfl
  | cons x xs ih =>
    have hs' := List.pairwise_cons.mp hs
    by_cases hx : x.Eol < now
    · simp only [List.takeWhile_cons, List.filter_cons, decide_eq_true_eq, hx, if_true]
      rw [ih hs'.2]
    · simp only [List.takeWhile_cons, List.filter_cons, decide_eq_true_eq, hx, if_false]
      symm
      rw [List.filter_eq_nil_iff]
      intro e he
      simp only [decide_eq_true_eq]
      intro hlt
      exact hx (lt_of_le_of_lt (hs'.1 e he) hlt)

/-- The function `compress` never produces a final block or footer, so the strict reader
always fails with an unexpected end of stream. -/
theorem gunzip_compress (bdy : List Nat) : gunzip (compress bdy) = none := rfl

/-- Had `Close` run before the buffer's bytes were taken, the stream would
decompress back to the exact body. -/
theorem gunzip_compressClosed (bdy : List Nat) : gunzip (compressClosed bdy) = some bdy := by
  simp [compressClosed, gzipNewWriter, gzipWrite, gzipFlush, gzipClose, gunzip, gunzipBody]

/-! ## Claim theorems -/

/-- C1, counterexample: with TTL 10 and an entry set at t0 = 0, `Get` at
exactly t = t0 + T = 10 returns Found with the entry — not Expired as the
claim states (`Get` reports expiry only when `Eol < now`, so the boundary
second is still served). -/
theorem C1_counterexample :
    sampleOne.Get 10 "u" = .ok ⟨10, "t", "", .raw [104]⟩ ∧
    sampleOne.Get 10 "u" ≠ .error .expired := by
  exact ⟨by decide, by decide⟩

/-- C1, amended: for an entry stored by `Set` at time t0 with TTL T, `Get`
returns Found with the entry for every query time t ≤ t0 + T (in particular
at exactly t0 + T), and Expired for every query time t > t0 + T. -/
theorem C1_ttl_boundary {m m' : MemoryStore} {t0 : Int} {url ct ce : String}
    {b : CachedBytes} (hset : m.Set t0 url ct ce b = .ok m') (t : Int) :
    (t ≤ t0 + m.ttlSec → m'.Get t url = .ok ⟨t0 + m.ttlSec, ct, ce, b⟩) ∧
    (t0 + m.ttlSec < t → m'.Get t url = .error .expired) ∧
    m'.Get (t0 + m.ttlSec) url = .ok ⟨t0 + m.ttlSec, ct, ce, b⟩ := by
  refine ⟨?_, ?_, ?_⟩
  · intro hle
    rw [Get_after_Set hset t, if_neg (not_lt.mpr hle)]
  · intro hlt
    rw [Get_after_Set hset t, if_pos hlt]
  · rw [Get_after_Set hset (t0 + m.ttlSec), if_neg (lt_irrefl _)]

/-- C1, witness for the amended theorem at TTL 10, t0 = 0, queried at
t = 3 (Found), t = 11 (Expired) and t = 10 (the boundary, Found). -/
theorem C1_ttl_boundary_witness :
    sampleOne.Get 3 "u" = .ok ⟨10, "t", "", .raw [104]⟩ ∧
    sampleOne.Get 11 "u" = .error .expired ∧
    sampleOne.Get 10 "u" = .ok ⟨10, "t", "", .raw [104]⟩ := by
  have hset : sampleNew.Set 0 "u" "t" "" (.raw [104]) = .ok sampleOne := by decide
  refine ⟨?_, ?_, ?_⟩
  · exact ((C1_ttl_boundary hset 3).1 (by decide)).trans (by decide)
  · exact (C1_ttl_boundary hset 11).2.1 (by decide)
  · exact ((C1_ttl_boundary hset 10).2.2).trans (by decide)

/-- C2: the claim fails on the code.  With TTL 10, `Set "u"` at t = 0 and
again at t = 5 reaches a state (monotone clock) whose entry expires at 15,
yet the sweeper tick at t = 12 deletes that unexpired entry: the stale
record (key, 10) left behind by the first `Set` (Set appends a record
without removing the previous one) drives the deletion, and a subsequent
`Get` finds nothing. -/
theorem C2_tick_deletes_unexpired_entry :
    Reachable sampleTwo 5 ∧
    lookupKV sampleTwo.cacheMap (hashKey "u") = some (.data ⟨15, "t", "", .raw [105]⟩) ∧
    ¬ ((15 : Int) < 12) ∧
    (sampleTwo.tick 12).Get 12 "u" = .error .noSuchKey := by
  refine ⟨?_, by decide, by decide, by decide⟩
  exact Reachable.step_set "u" "t" "" (.raw [105])
    (Reachable.step_set "u" "t" "" (.raw [104]) (Reachable.init 100 10 0) (by decide))
    (by decide)

/-- C3: the claim fails on the code.  A cacheable 200 text response is
stored with contentEncoding "gzip", but `compress` captures `buff.Bytes()`
before the deferred `gzip.Writer.Close` runs: the stored stream ends after
the sync flush with no final block and no footer, so a strict gunzip fails
(unexpected EOF) for EVERY body instead of reproducing it; closing before
returning would round-trip.  A response already carrying a Content-Encoding
is stored unchanged, as the claim says. -/
theorem C3_gzip_roundtrip_fails :
    (onProxyResponse sampleNew 0 "u" resText).map
        (fun p => (p.2.contentEncoding, p.2.body)) =
      .ok ("gzip", .gzipStream (compress [104, 101, 108, 108, 111])) ∧
    compress [104, 101, 108, 108, 111] =
      [.header, .syncFlush [104, 101, 108, 108, 111]] ∧
    (∀ bdy : List Nat, gunzip (compress bdy) = none) ∧
    (∀ bdy : List Nat, gunzip (compressClosed bdy) = some bdy) ∧
    (onProxyResponse sampleNew 0 "u" resEncoded).map (fun p => (p.2.contentEncoding, p.2.body)) =
      .ok ("br", .raw [1, 2, 3]) := by
  refine ⟨by decide, by decide, gunzip_compress, gunzip_compressClosed, by decide⟩

/-- C4: the claim fails on the code in src/ttlcache/middleware.go: when the
store's `Set` fails (here: the end-of-life list sentinel is missing),
`onProxyResponse` RETURNS the error from `ModifyResponse`, which makes
`httputil.ReverseProxy` abort the response (its error handler replaces it
with a bad-gateway error), so the client does not receive the origin
response.  (The src/unnamed/part_000 variant instead spawns a detached
`cacheResponse` that only logs, matching the claim.) -/
theorem C4_cache_write_failure_aborts_response :
    onProxyResponse mBad 0 "u" resText = .error .eolListMissing ∧
    mBad.Set 0 "u" "text/html" "gzip" (.gzipStream (compress [104, 101, 108, 108, 111])) =
      .error .eolListMissing := by
  exact ⟨by decide, by decide⟩

/-- C5, counterexample: with the end-of-life list sentinel missing, `Set`
returns an error and does NOT store the entry (the claim says it stores it
and returns success); and when `Get` fails with the type-assertion error the
router returns the error instead of forwarding to the origin. -/
theorem C5_counterexample :
    mBad.Set 0 "u" "t" "" (.raw []) = .error .eolListMissing ∧
    SetD mBad 0 "u" "t" "" (.raw []) = mBad ∧
    lookupKV (SetD mBad 0 "u" "t" "" (.raw [])).cacheMap (hashKey "u") = none ∧
    middlewareHandler mCast 0 "u" false = .errorReturned .castFailure ∧
    middlewareHandler mCast 0 "u" false ≠ .forwardedToOrigin := by
  refine ⟨by decide, by decide, by decide, by decide, by decide⟩

/-- C5, amended: the cache layer fails closed, not open.  When the
end-of-life list sentinel is missing or of an unexpected type, `Set` returns
an error to its caller without storing the entry; and when `Get` returns the
type-assertion error (any error other than NotFound/Expired), the router
returns the error to the framework instead of forwarding the request to the
origin. -/
theorem C5_fail_closed (m : MemoryStore) (now : Int) (url ct ce : String) (b : CachedBytes) :
    (lookupKV m.cacheMap EOL_DATA_KEY = none →
      m.Set now url ct ce b = .error .eolListMissing ∧ SetD m now url ct ce b = m) ∧
    (∀ d0, lookupKV m.cacheMap EOL_DATA_KEY = some (.data d0) →
      m.Set now url ct ce b = .error .eolListCastFailure ∧ SetD m now url ct ce b = m) ∧
    (m.Get now url = .error .castFailure →
      middlewareHandler m now url false = .errorReturned .castFailure) := by
  refine ⟨?_, ?_, ?_⟩
  · intro hmiss
    have hset : m.Set now url ct ce b = .error .eolListMissing := by
      unfold MemoryStore.Set HashKey
      rw [hmiss]
    exact ⟨hset, by unfold SetD; rw [hset]⟩
  · intro d0 hdata
    have hset : m.Set now url ct ce b = .error .eolListCastFailure := by
      unfold MemoryStore.Set HashKey
      rw [hdata]
    exact ⟨hset, by unfold SetD; rw [hset]⟩
  · intro hget
    have hred : middlewareHandler m now url false =
        match m.Get now url with
        | .error .noSuchKey => .forwardedToOrigin
        | .error .expired => .forwardedToOrigin
        | .error e => .errorReturned e
        | .ok d => .servedFromCache d := rfl
    rw [hred, hget]

/-- C5, witness for the amended theorem: the sentinel-missing store and the
wrong-type store. -/
theorem C5_fail_closed_witness :
    (mBad.Set 0 "u" "t" "" (.raw []) = .error .eolListMissing ∧
      SetD mBad 0 "u" "t" "" (.raw []) = mBad) ∧
    middlewareHandler mCast 0 "u" false = .errorReturned .castFailure := by
  refine ⟨(C5_fail_closed mBad 0 "u" "t" "" (.raw [])).1 (by decide), ?_⟩
  exact (C5_fail_closed mCast 0 "u" "t" "" (.raw [])).2.2 (by decide)

/-- C6: the claim fails on the code.  After `Set "u"` at t = 0 and again at
t = 5 (TTL 10), the store holds the refreshed entry expiring at 15, but the
end-of-life index holds TWO records for the key — the stale (key, 10) from
the first `Set` (never removed on overwrite) alongside (key, 15) — so the
key does not have exactly one record and the stale record's expiresAt
differs from the entry's. -/
theorem C6_index_record_not_unique :
    Reachable sampleTwo 5 ∧
    lookupKV sampleTwo.cacheMap (hashKey "u") = some (.data ⟨15, "t", "", .raw [105]⟩) ∧
    (eolListOf sampleTwo).filter (fun e => e.Key == hashKey "u") =
      [⟨hashKey "u", 10⟩, ⟨hashKey "u", 15⟩] := by
  refine ⟨?_, by decide, by decide⟩
  exact Reachable.step_set "u" "t" "" (.raw [105])
    (Reachable.step_set "u" "t" "" (.raw [104]) (Reachable.init 100 10 0) (by decide))
    (by decide)

/-- C7: the interceptor stores an origin response exactly when its status is
200 and its Cache-Control is neither exactly "no-cache" nor "no-store": any
non-200 response and any 200 response with one of those two values passes
through with the store and the response unchanged, while in the cacheable
case the stored entry is retrievable at the derived key with the delivered
content type, encoding and body. -/
theorem C7_caching_policy (m : MemoryStore) (now : Int) (uri : String) (res : HttpResponse) :
    (res.statusCode ≠ 200 → onProxyResponse m now uri res = .ok (m, passthrough res)) ∧
    (res.cacheControl = "no-store" → onProxyResponse m now uri res = .ok (m, passthrough res)) ∧
    (res.cacheControl = "no-cache" → onProxyResponse m now uri res = .ok (m, passthrough res)) ∧
    (res.statusCode = 200 → res.cacheControl ≠ "no-cache" → res.cacheControl ≠ "no-store" →
      ∀ m2 dres, onProxyResponse m now uri res = .ok (m2, dres) →
        lookupKV m2.cacheMap (hashKey uri) =
          some (.data ⟨now + m.ttlSec, res.contentType, dres.contentEncoding, dres.body⟩)) := by
  refine ⟨?_, ?_, ?_, ?_⟩
  · intro h
    unfold onProxyResponse
    rw [if_neg (by simp [h])]
    rfl
  · intro h
    unfold onProxyResponse
    rw [if_neg (by simp [h])]
    rfl
  · intro h
    unfold onProxyResponse
    rw [if_neg (by simp [h])]
    rfl
  · intro h200 hnc hns m2 dres hrun
    unfold onProxyResponse at hrun
    rw [if_pos ⟨h200, hnc, hns⟩] at hrun
    by_cases hb : ((strContains res.contentType "text"
        || strContains res.contentType "application") && (res.contentEncoding == "")) = true
    · rw [if_pos hb] at hrun
      cases hset : m.Set now uri res.contentType "gzip" (.gzipStream (compress res.body)) with
      | error e => rw [hset] at hrun; cases hrun
      | ok m' =>
        rw [hset] at hrun
        simp only [Except.ok.injEq, Prod.mk.injEq] at hrun
        obtain ⟨rfl, rfl⟩ := hrun
        exact lookup_after_Set hset
    · rw [if_neg hb] at hrun
      cases hset : m.Set now uri res.contentType res.contentEncoding (.raw res.body) with
      | error e => rw [hset] at hrun; cases hrun
      | ok m' =>
        rw [hset] at hrun
        simp only [Except.ok.injEq, Prod.mk.injEq] at hrun
        obtain ⟨rfl, rfl⟩ := hrun
        exact lookup_after_Set hset

/-- C7, witness: a 200 no-store response passes through a fresh store
unchanged and remains unretrievable; proxying the cacheable text response
makes the entry retrievable. -/
theorem C7_caching_policy_witness :
    onProxyResponse sampleNew 0 "u" resNoStore = .ok (sampleNew, passthrough resNoStore) ∧
    sampleNew.Get 0 "u" = .error .noSuchKey ∧
    (onProxyResponse sampleNew 0 "u" resText).map
        (fun p => lookupKV p.1.cacheMap (hashKey "u")) =
      .ok (some (.data ⟨10, "text/html", "gzip",
        .gzipStream (compress [104, 101, 108, 108, 111])⟩)) := by
  refine ⟨(C7_caching_policy sampleNew 0 "u" resNoStore).2.1 (by decide), by decide, by decide⟩

/-- C8: a sweeper tick at snapshot time `now` removes every entry whose
expiry lies strictly before `now` together with its index record: the
subsequent `Get` reports NotFound (not Expired), the record is gone from the
index, the tick prunes exactly the records with `Eol < now`, and — the list
being sorted — the stop-early scan visits exactly those records. -/
theorem C8_sweep_removes_expired {m : MemoryStore} {t : Int} (h : Reachable m t)
    (now : Int) (url : String) (d : ChacheData)
    (hentry : lookupKV m.cacheMap (hashKey url) = some (.data d))
    (hexp : d.Eol < now) :
    (∀ t', (m.tick now).Get t' url = .error .noSuchKey) ∧
    EolData.mk (hashKey url) d.Eol ∉ eolListOf (m.tick now) ∧
    eolListOf (m.tick now) = (eolListOf m).filter (fun e => !decide (e.Eol < now)) ∧
    (eolListOf m).takeWhile (fun e => decide (e.Eol < now)) =
      (eolListOf m).filter (fun e => decide (e.Eol < now)) := by
  have hm := reachable_inv h
  have hne := hashKey_ne_sentinel url
  have hrec := hm.entryRecord _ d hentry
  have hmem := mem_takeWhile_of_sorted hm.sortedRecords hrec hexp
  have htick : m.tick now = { m with cacheMap := (storeKV (deleteKeys m.cacheMap
      ((eolListOf m).takeWhile (fun e => decide (e.Eol < now))))
      EOL_DATA_KEY (.eolList ((eolListOf m).filter (fun e => !decide (e.Eol < now))))) } := by
    unfold MemoryStore.tick
    rw [hm.sentinel]
  have hsent : lookupKV (m.tick now).cacheMap EOL_DATA_KEY =
      some (.eolList ((eolListOf m).filter (fun e => !decide (e.Eol < now)))) := by
    rw [htick]
    exact lookupKV_storeKV_self _ _ _
  have hlist := eolListOf_eq hsent
  have hlook : lookupKV (m.tick now).cacheMap (hashKey url) = none := by
    rw [htick]
    show lookupKV (storeKV (deleteKeys m.cacheMap
        ((eolListOf m).takeWhile (fun e => decide (e.Eol < now))))
        EOL_DATA_KEY (.eolList ((eolListOf m).filter (fun e => !decide (e.Eol < now)))))
        (hashKey url) = none
    rw [lookupKV_storeKV_ne _ _ _ _ hne, lookupKV_deleteKeys]
    rw [if_pos (List.any_eq_true.mpr ⟨⟨hashKey url, d.Eol⟩, hmem, by simp⟩)]
  refine ⟨?_, ?_, hlist, takeWhile_eq_filter_of_sorted hm.sortedRecords⟩
  · intro t'
    unfold MemoryStore.Get HashKey
    simp only [hlook]
  · rw [hlist]
    intro hmem2
    have := (List.mem_filter.mp hmem2).2
    simp [hexp] at this

/-- C8, witness: TTL 10, entry set at t = 0, tick at t = 12 — the entry is
gone (NotFound) and its record has left the index. -/
theorem C8_sweep_removes_expired_witness :
    (sampleOne.tick 12).Get 12 "u" = .error .noSuchKey ∧
    EolData.mk (hashKey "u") 10 ∉ eolListOf (sampleOne.tick 12) := by
  have hr : Reachable sampleOne 0 :=
    Reachable.step_set "u" "t" "" (.raw [104]) (Reachable.init 100 10 0) (by decide)
  have h := C8_sweep_removes_expired hr 12 "u" ⟨10, "t", "", .raw [104]⟩
    (by decide) (by decide)
  exact ⟨h.1 12, h.2.1⟩

/-- C9: the claim fails on the code of src/unnamed/part_000.  Its key
derivation `hasher.Sum([]byte(url))` appends the FNV-128a digest of the
empty written stream to the INPUT, so the key is the URL's bytes followed by
16 constant bytes: deriving twice is deterministic, but the key's width is
`input length + 16` — for inputs "a" and "ab" the derived keys have widths
17 and 18, not one fixed width. -/
theorem C9_key_width_not_fixed :
    fnvSumKey (strBytes "a") = strBytes "a" ++ fnv128aOffsetBytes ∧
    (∀ u : List Nat, (fnvSumKey u).length = u.length + 16) ∧
    (fnvSumKey (strBytes "a")).length = 17 ∧
    (fnvSumKey (strBytes "ab")).length = 18 ∧
    (fnvSumKey (strBytes "a")).length ≠ (fnvSumKey (strBytes "ab")).length := by
  refine ⟨rfl, ?_, by decide, by decide, by decide⟩
  intro u
  simp [fnvSumKey, fnv128aOffsetBytes]

/-- C10: in every reachable state the sentinel key holds the end-of-life
list and every other present key holds a cache entry (the spec-modelled
digest never collides with the sentinel), so the type-assertion failure
branches are unreachable: `Get` never returns its cast error and `Set`
never returns its list-missing or list-cast errors. -/
theorem C10_type_safety {m : MemoryStore} {t : Int} (h : Reachable m t) :
    (∀ url, hashKey url ≠ EOL_DATA_KEY) ∧
    (∃ l, lookupKV m.cacheMap EOL_DATA_KEY = some (.eolList l)) ∧
    (∀ k v, k ≠ EOL_DATA_KEY → lookupKV m.cacheMap k = some v → ∃ d, v = .data d) ∧
    (∀ now url, m.Get now url ≠ .error .castFailure) ∧
    (∀ now url ct ce b, m.Set now url ct ce b ≠ .error .eolListMissing ∧
      m.Set now url ct ce b ≠ .error .eolListCastFailure) := by
  have hm := reachable_inv h
  refine ⟨hashKey_ne_sentinel, ⟨_, hm.sentinel⟩, hm.typedVals, ?_, ?_⟩
  · intro now url hcontra
    unfold MemoryStore.Get HashKey at hcontra
    cases hl : lookupKV m.cacheMap (hashKey url) with
    | none => simp [hl] at hcontra
    | some v =>
      obtain ⟨d, rfl⟩ := hm.typedVals _ v (hashKey_ne_sentinel url) hl
      simp only [hl] at hcontra
      by_cases he : d.Eol < now
      · simp [he] at hcontra
      · simp [he] at hcontra
  · intro now url ct ce b
    have hset := Set_ok_of_sentinel hm.sentinel now url ct ce b
    constructor
    · rw [hset]
      intro hc
      cases hc
    · rw [hset]
      intro hc
      cases hc

/-- C10, witness: a concrete reachable state where the error branches do
not fire. -/
theorem C10_type_safety_witness :
    sampleOne.Get 5 "x" ≠ .error .castFailure ∧
    sampleOne.Set 5 "x" "t" "" (.raw []) ≠ .error .eolListMissing := by
  have hr : Reachable sampleOne 0 :=
    Reachable.step_set "u" "t" "" (.raw [104]) (Reachable.init 100 10 0) (by decide)
  have h := C10_type_safety hr
  exact ⟨h.2.2.2.1 5 "x", (h.2.2.2.2 5 "x" "t" "" (.raw [])).1⟩

end OuchiCdn
